import Mathlib

/-!
Verification development for the StrainFacts core (src/sfacts/estimation.py,
src/sfacts/model.py, src/sfacts/workflow.py).

The Python code is shallowly embedded: pure fragments become Lean functions,
the optimization loop of `estimate_parameters` becomes a fuel-indexed
recursion over an abstract per-step ELBO sequence, Python dicts become
`String → Option α` maps, and the process-global mutable state (the
`OPTIMIZERS` table, the RNG) is threaded explicitly.

ELBO values are rationals with `none` standing for IEEE NaN (every comparison
with NaN is false, which is exactly how the embedded comparisons treat
`none`).
-/

namespace StrainFacts

/-- An ELBO value as produced by `svi.step()`: `some q` is an ordinary float
(modelled as a rational), `none` is NaN. -/
abbrev ElboVal := Option ℚ

/-- State of one `torch.optim.lr_scheduler.ReduceLROnPlateau` as configured by
`get_scheduled_optimization_stepper` (mode "min", threshold 0, threshold_mode
"rel", min_lr 0, eps 0).  `best = none` is the initial `inf`. -/
structure SchedState where
  lr : ℚ
  best : Option ℚ
  numBad : ℕ
  cooldownCtr : ℕ
deriving DecidableEq

/-- `is_better(a, best)` for mode "min", threshold 0, threshold_mode "rel":
`a < best * (1 - 0)`.  A NaN metric is never better; the initial `inf` best is
beaten by any non-NaN value. -/
def isBetter : ElboVal → Option ℚ → Bool
  | none, _ => false
  | some _, none => true
  | some a, some b => decide (a < b)

/-- Python `max` on two numbers (the first argument wins ties). -/
def pyMax (a b : ℚ) : ℚ := if a < b then b else a

/-- `_reduce_lr` with `min_lr = 0` and `eps = 0`: the new rate is
`max (lr * factor, 0)` and is installed only when it is a strict decrease. -/
def reduceLR (factor lr : ℚ) : ℚ :=
  let newLr := pyMax (lr * factor) 0
  if 0 < lr - newLr then newLr else lr

/-- One `ReduceLROnPlateau.step(metrics)` call. -/
def schedStep (patience cooldown : ℕ) (factor : ℚ) (s : SchedState) (m : ElboVal) :
    SchedState :=
  let bestBad := if isBetter m s.best then (m, 0) else (s.best, s.numBad + 1)
  let badCool :=
    if 0 < s.cooldownCtr then (0, s.cooldownCtr - 1) else (bestBad.2, s.cooldownCtr)
  if patience < badCool.1 then
    { lr := reduceLR factor s.lr, best := bestBad.1, numBad := 0, cooldownCtr := cooldown }
  else
    { lr := s.lr, best := bestBad.1, numBad := badCool.1, cooldownCtr := badCool.2 }

/-- Initial scheduler state: learning rate from the optimizer kwargs, best
`inf`, no bad epochs, no cooldown. -/
def schedInit (lr0 : ℚ) : SchedState := ⟨lr0, none, 0, 0⟩

/-- Scheduler state after the first `k` optimization steps, fed the metrics
`elbo 0, …, elbo (k-1)` in order. -/
def schedAfter (elbo : ℕ → ElboVal) (patience cooldown : ℕ) (factor : ℚ)
    (s0 : SchedState) : ℕ → SchedState
  | 0 => s0
  | k + 1 => schedStep patience cooldown factor
      (schedAfter elbo patience cooldown factor s0 k) (elbo k)

/-- How the `estimate_parameters` loop ended: `converged` is the
`break` after the learning-rate test, `maxiterReached` is falling off the end
of `range(maxiter)`, `nanError` is `raise RuntimeError("ELBO NaN?")`. -/
inductive FitOutcome where
  | converged
  | maxiterReached
  | nanError
deriving DecidableEq

/-- Result of the optimization loop of `estimate_parameters`: the outcome, the
`history` list as built by the loop, the number of entries appended (equals
the number of fully completed iterations), and the final scheduler state. -/
structure FitResult where
  outcome : FitOutcome
  history : List ElboVal
  steps : ℕ
  sched : SchedState
deriving DecidableEq

/-- The body of `for i in pbar:` in `estimate_parameters`, recursing on the
remaining fuel (`maxiter - i`).  Per iteration: `elbo = svi.step()`;
`scheduler.step(elbo)`; if `np.isnan(elbo)` raise before appending; append to
`history`; every `lagA` steps read the post-step learning rate and `break`
when it is below the threshold.  The `delta`/`lagA`/`lagB` postfix values are
computed from `history` purely for the progress display and are not part of
the control flow, so they are not recorded here. -/
def fitLoopGo (elbo : ℕ → ElboVal) (lagA patience cooldown : ℕ)
    (factor lrThresh : ℚ) : ℕ → ℕ → SchedState → List ElboVal → FitResult
  | 0, i, s, hist => ⟨.maxiterReached, hist, i, s⟩
  | fuel + 1, i, s, hist =>
    let e := elbo i
    let s2 := schedStep patience cooldown factor s e
    match e with
    | none => ⟨.nanError, hist, i, s2⟩
    | some _ =>
      let hist2 := hist ++ [e]
      if i % lagA = 0 ∧ s2.lr < lrThresh then ⟨.converged, hist2, i + 1, s2⟩
      else fitLoopGo elbo lagA patience cooldown factor lrThresh fuel (i + 1) s2 hist2

/-- The optimization loop of `estimate_parameters` as called in the source:
`patience = lagB`, `cooldown = lagB`, `factor = 0.5`, learning-rate threshold
`1e-6`, starting at iteration 0 with an empty history.  `lr0` is the
configured optimizer learning rate (default 0.1). -/
def fitLoop (elbo : ℕ → ElboVal) (maxiter lagA lagB : ℕ) (lr0 : ℚ) : FitResult :=
  fitLoopGo elbo lagA lagB lagB (1 / 2) (1 / 1000000) maxiter 0 (schedInit lr0) []

/-- Invariant of the loop relating the returned history to the ELBO sequence:
starting the loop at iteration `i` with accumulated history `hist`, the
returned history extends `hist` with exactly the ELBO values of the completed
iterations, every completed iteration produced a non-NaN value, and a
`nanError` outcome means the very next ELBO value was NaN (and was not
appended). -/
def HistSpec (elbo : ℕ → ElboVal) (i : ℕ) (hist : List ElboVal) (r : FitResult) : Prop :=
  i ≤ r.steps ∧
  r.history = hist ++ (List.range' i (r.steps - i)).map elbo ∧
  (∀ j, i ≤ j → j < r.steps → elbo j ≠ none) ∧
  (r.outcome = FitOutcome.nanError → elbo r.steps = none)

theorem fitLoopGo_hist (elbo : ℕ → ElboVal) (lagA patience cooldown : ℕ)
    (factor lrThresh : ℚ) :
    ∀ fuel i s hist, HistSpec elbo i hist
      (fitLoopGo elbo lagA patience cooldown factor lrThresh fuel i s hist) := by
  intro fuel
  induction fuel with
  | zero =>
    intro i s hist
    simp only [HistSpec, fitLoopGo]
    refine ⟨le_rfl, by simp, ?_, ?_⟩
    · intro j h1 h2; exact absurd h2 (by omega)
    · exact fun h => FitOutcome.noConfusion h
  | succ fuel ih =>
    intro i s hist
    simp only [HistSpec, fitLoopGo]
    cases he : elbo i with
    | none =>
      dsimp only
      refine ⟨le_rfl, by simp, ?_, fun _ => he⟩
      intro j h1 h2; exact absurd h2 (by omega)
    | some q =>
      dsimp only
      split
      · dsimp only
        refine ⟨by omega, ?_, ?_, fun h => FitOutcome.noConfusion h⟩
        · have h1 : i + 1 - i = 1 := by omega
          simp [h1, List.range'_one, he]
        · intro j hj1 hj2
          have : j = i := by omega
          subst this; simp [he]
      · have hrec := ih (i + 1)
          (schedStep patience cooldown factor s (some q)) (hist ++ [some q])
        simp only [HistSpec] at hrec
        obtain ⟨k1, k2, k3, k4⟩ := hrec
        refine ⟨by omega, ?_, ?_, k4⟩
        · rw [k2]
          have hsub : (fitLoopGo elbo lagA patience cooldown factor lrThresh fuel (i + 1)
              (schedStep patience cooldown factor s (some q)) (hist ++ [some q])).steps - i
              = ((fitLoopGo elbo lagA patience cooldown factor lrThresh fuel (i + 1)
              (schedStep patience cooldown factor s (some q)) (hist ++ [some q])).steps
                - (i + 1)) + 1 := by omega
          rw [hsub, List.range'_succ]
          simp [he]
        · intro j hj1 hj2
          rcases eq_or_lt_of_le hj1 with hj | hj
          · rw [← hj, he]; exact fun h => Option.noConfusion h
          · exact k3 j (by omega) hj2

/-- Invariant of the loop's control flow, assuming no NaN ever occurs.
`S k` is the scheduler state after `k` steps.  A `converged` outcome happened
at the first reporting step (index divisible by `lagA`) whose post-step
learning rate was below the threshold; a `maxiterReached` outcome means no
reporting step saw a learning rate below the threshold.  There is no other
way to stop: the learning-rate test is the sole convergence rule. -/
def LoopSpec (S : ℕ → SchedState) (lagA : ℕ) (lrThresh : ℚ) (i fuel : ℕ)
    (r : FitResult) : Prop :=
  r.outcome ≠ FitOutcome.nanError ∧
  (r.outcome = FitOutcome.converged →
    i < r.steps ∧ r.steps ≤ i + fuel ∧ (r.steps - 1) % lagA = 0 ∧
    r.sched = S r.steps ∧ r.sched.lr < lrThresh ∧
    (∀ j, i ≤ j → j + 1 < r.steps → j % lagA = 0 → ¬ (S (j + 1)).lr < lrThresh)) ∧
  (r.outcome = FitOutcome.maxiterReached →
    r.steps = i + fuel ∧ r.sched = S (i + fuel) ∧
    (∀ j, i ≤ j → j < i + fuel → j % lagA = 0 → ¬ (S (j + 1)).lr < lrThresh))

theorem fitLoopGo_spec (elbo : ℕ → ElboVal) (lagA patience cooldown : ℕ)
    (factor lrThresh : ℚ) (s0 : SchedState) (hnn : ∀ k, elbo k ≠ none) :
    ∀ fuel i hist,
      LoopSpec (schedAfter elbo patience cooldown factor s0) lagA lrThresh i fuel
        (fitLoopGo elbo lagA patience cooldown factor lrThresh fuel i
          (schedAfter elbo patience cooldown factor s0 i) hist) := by
  intro fuel
  induction fuel with
  | zero =>
    intro i hist
    simp only [LoopSpec, fitLoopGo]
    refine ⟨fun h => FitOutcome.noConfusion h, fun h => FitOutcome.noConfusion h, fun _ => ?_⟩
    refine ⟨by omega, by rw [Nat.add_zero], ?_⟩
    intro j hj1 hj2; exact absurd hj2 (by omega)
  | succ fuel ih =>
    intro i hist
    obtain ⟨q, he⟩ := Option.ne_none_iff_exists'.mp (hnn i)
    have hstep : schedStep patience cooldown factor
        (schedAfter elbo patience cooldown factor s0 i) (some q)
        = schedAfter elbo patience cooldown factor s0 (i + 1) := by
      rw [schedAfter, he]
    simp only [LoopSpec, fitLoopGo]
    rw [he]
    dsimp only
    split
    next hcond =>
      dsimp only
      refine ⟨fun h => FitOutcome.noConfusion h, fun _ => ?_, fun h => FitOutcome.noConfusion h⟩
      refine ⟨by omega, by omega, by simpa using hcond.1, by rw [hstep], hcond.2, ?_⟩
      intro j hj1 hj2; exact absurd hj2 (by omega)
    next hcond =>
      rw [hstep]
      have hrec := ih (i + 1) (hist ++ [some q])
      simp only [LoopSpec] at hrec
      obtain ⟨k1, k2, k3⟩ := hrec
      refine ⟨k1, ?_, ?_⟩
      · intro hc
        obtain ⟨m1, m2, m3, m4, m5, m6⟩ := k2 hc
        refine ⟨by omega, by omega, m3, m4, m5, ?_⟩
        intro j hj1 hj2 hj3
        rcases eq_or_lt_of_le hj1 with hj | hj
        · subst hj
          intro hlt
          exact hcond ⟨hj3, by rwa [hstep]⟩
        · exact m6 j (by omega) hj2 hj3
      · intro hc
        obtain ⟨m1, m2, m3⟩ := k3 hc
        have harith : i + 1 + fuel = i + (fuel + 1) := by omega
        refine ⟨by omega, by rw [← harith]; exact m2, ?_⟩
        intro j hj1 hj2 hj3
        rcases eq_or_lt_of_le hj1 with hj | hj
        · subst hj
          intro hlt
          exact hcond ⟨hj3, by rwa [hstep]⟩
        · exact m3 j (by omega) (by omega) hj3

/-- A constant ELBO sequence (never NaN, never improving after the first
step), used for the concrete instances of claim C1. -/
def c1ConstElbo : ℕ → ElboVal := fun _ => some 1

/-- Claim C1, counterexample.  Run `estimate_parameters` with
`maxiter = 19`, `lagA = 20`, `lagB = 0` (so `patience = cooldown = 0`), the
default learning rate `0.1`, and a constant ELBO sequence.  The scheduler
halves the rate at every step from step 1 on, so the learning rate is below
`1e-6` from step 17 onwards (and in the final state), yet the loop runs all
19 iterations and ends with `maxiterReached`: the threshold is only examined
at reporting steps (`i % lagA == 0`), i.e. only at `i = 0` here.  This
refutes the claim that once the learning rate falls below `1e-6` the loop
stops successfully before reaching `maxiter`. -/
theorem claim_c1_counterexample :
    (fitLoop c1ConstElbo 19 20 0 (1 / 10)).sched.lr < 1 / 1000000 ∧
    (fitLoop c1ConstElbo 19 20 0 (1 / 10)).outcome = FitOutcome.maxiterReached ∧
    (fitLoop c1ConstElbo 19 20 0 (1 / 10)).steps = 19 := by
  norm_num [fitLoop, fitLoopGo, schedStep, schedInit, isBetter, reduceLR, pyMax,
    c1ConstElbo]

/-- Claim C1 (amended): in every fit run by `estimate_parameters` (with a
NaN-free ELBO sequence), the loop stops successfully exactly at the first
reporting step (`i % lagA == 0`) whose post-step learning rate is below
`1e-6`; if no reporting step before `maxiter` observes such a rate the loop
runs to `maxiter`.  The learning-rate threshold is the sole convergence rule
(the lagA/lagB deltas are computed for display only and never stop the
loop); between reporting steps the threshold is not checked, so the rate can
fall below `1e-6` without the loop stopping before `maxiter`. -/
theorem claim_c1_amended (elbo : ℕ → ElboVal) (maxiter lagA lagB : ℕ) (lr0 : ℚ)
    (hnn : ∀ k, elbo k ≠ none) :
    (fitLoop elbo maxiter lagA lagB lr0).outcome ≠ FitOutcome.nanError ∧
    ((fitLoop elbo maxiter lagA lagB lr0).outcome = FitOutcome.converged →
      0 < (fitLoop elbo maxiter lagA lagB lr0).steps ∧
      (fitLoop elbo maxiter lagA lagB lr0).steps ≤ maxiter ∧
      ((fitLoop elbo maxiter lagA lagB lr0).steps - 1) % lagA = 0 ∧
      (fitLoop elbo maxiter lagA lagB lr0).sched
        = schedAfter elbo lagB lagB (1 / 2) (schedInit lr0)
            (fitLoop elbo maxiter lagA lagB lr0).steps ∧
      (fitLoop elbo maxiter lagA lagB lr0).sched.lr < 1 / 1000000 ∧
      (∀ j, j + 1 < (fitLoop elbo maxiter lagA lagB lr0).steps → j % lagA = 0 →
        ¬ (schedAfter elbo lagB lagB (1 / 2) (schedInit lr0) (j + 1)).lr < 1 / 1000000)) ∧
    ((fitLoop elbo maxiter lagA lagB lr0).outcome = FitOutcome.maxiterReached →
      (fitLoop elbo maxiter lagA lagB lr0).steps = maxiter ∧
      (∀ j, j < maxiter → j % lagA = 0 →
        ¬ (schedAfter elbo lagB lagB (1 / 2) (schedInit lr0) (j + 1)).lr < 1 / 1000000)) := by
  simp only [fitLoop]
  have h := fitLoopGo_spec elbo lagA lagB lagB (1 / 2) (1 / 1000000)
    (schedInit lr0) hnn maxiter 0 []
  rw [show schedAfter elbo lagB lagB (1 / 2) (schedInit lr0) 0 = schedInit lr0
    from rfl] at h
  obtain ⟨h1, h2, h3⟩ := h
  refine ⟨h1, fun hc => ?_, fun hc => ?_⟩
  · obtain ⟨m1, m2, m3, m4, m5, m6⟩ := h2 hc
    exact ⟨m1, by omega, m3, m4, m5, fun j hj1 hj2 => m6 j (Nat.zero_le j) hj1 hj2⟩
  · obtain ⟨m1, m2, m3⟩ := h3 hc
    exact ⟨by omega, fun j hj1 hj2 => m3 j (Nat.zero_le j) (by omega) hj2⟩

/-- Witness for the amended claim C1 at a concrete input
(`maxiter = 3`, `lagA = 1`, `lagB = 0`, `lr0 = 0.1`, constant ELBO). -/
theorem claim_c1_amended_witness :
    (∀ k, c1ConstElbo k ≠ none) ∧
    ((fitLoop c1ConstElbo 3 1 0 (1 / 10)).outcome ≠ FitOutcome.nanError ∧
    ((fitLoop c1ConstElbo 3 1 0 (1 / 10)).outcome = FitOutcome.converged →
      0 < (fitLoop c1ConstElbo 3 1 0 (1 / 10)).steps ∧
      (fitLoop c1ConstElbo 3 1 0 (1 / 10)).steps ≤ 3 ∧
      ((fitLoop c1ConstElbo 3 1 0 (1 / 10)).steps - 1) % 1 = 0 ∧
      (fitLoop c1ConstElbo 3 1 0 (1 / 10)).sched
        = schedAfter c1ConstElbo 0 0 (1 / 2) (schedInit (1 / 10))
            (fitLoop c1ConstElbo 3 1 0 (1 / 10)).steps ∧
      (fitLoop c1ConstElbo 3 1 0 (1 / 10)).sched.lr < 1 / 1000000 ∧
      (∀ j, j + 1 < (fitLoop c1ConstElbo 3 1 0 (1 / 10)).steps → j % 1 = 0 →
        ¬ (schedAfter c1ConstElbo 0 0 (1 / 2) (schedInit (1 / 10)) (j + 1)).lr
            < 1 / 1000000)) ∧
    ((fitLoop c1ConstElbo 3 1 0 (1 / 10)).outcome = FitOutcome.maxiterReached →
      (fitLoop c1ConstElbo 3 1 0 (1 / 10)).steps = 3 ∧
      (∀ j, j < 3 → j % 1 = 0 →
        ¬ (schedAfter c1ConstElbo 0 0 (1 / 2) (schedInit (1 / 10)) (j + 1)).lr
            < 1 / 1000000))) :=
  ⟨fun k => by simp [c1ConstElbo],
   claim_c1_amended c1ConstElbo 3 1 0 (1 / 10) (fun k => by simp [c1ConstElbo])⟩

/-- Claim C2: in every fit run by `estimate_parameters`, the history list
holds exactly the ELBO values of the completed iterations, all of them
non-NaN; a NaN ELBO at a step stops the loop at once (outcome
`RuntimeError("ELBO NaN?")`, modelled as `FitOutcome.nanError`) before the
NaN value is appended, so the returned-or-abandoned history never contains a
NaN (`none`) entry. -/
theorem claim_c2 (elbo : ℕ → ElboVal) (maxiter lagA lagB : ℕ) (lr0 : ℚ) :
    (fitLoop elbo maxiter lagA lagB lr0).history
      = (List.range (fitLoop elbo maxiter lagA lagB lr0).steps).map elbo ∧
    (∀ j, j < (fitLoop elbo maxiter lagA lagB lr0).steps → elbo j ≠ none) ∧
    none ∉ (fitLoop elbo maxiter lagA lagB lr0).history ∧
    ((fitLoop elbo maxiter lagA lagB lr0).outcome = FitOutcome.nanError →
      elbo (fitLoop elbo maxiter lagA lagB lr0).steps = none ∧
      (fitLoop elbo maxiter lagA lagB lr0).history.length
        = (fitLoop elbo maxiter lagA lagB lr0).steps) := by
  simp only [fitLoop]
  obtain ⟨k1, k2, k3, k4⟩ := fitLoopGo_hist elbo lagA lagB lagB (1 / 2) (1 / 1000000)
    maxiter 0 (schedInit lr0) []
  have k2' : (fitLoopGo elbo lagA lagB lagB (1 / 2) (1 / 1000000) maxiter 0
      (schedInit lr0) []).history
      = (List.range (fitLoopGo elbo lagA lagB lagB (1 / 2) (1 / 1000000) maxiter 0
          (schedInit lr0) []).steps).map elbo := by
    rw [k2, List.range_eq_range']
    simp
  refine ⟨k2', fun j hj => k3 j (Nat.zero_le j) hj, ?_, fun ho => ⟨k4 ho, ?_⟩⟩
  · intro hmem
    rw [k2'] at hmem
    obtain ⟨j, hj, hjeq⟩ := List.mem_map.mp hmem
    exact k3 j (Nat.zero_le j) (List.mem_range.mp hj) hjeq
  · rw [k2']
    simp

/-! ### Chunk iterator (`workflow._chunk_start_end_iterator`) -/

/-- The half-open interval iterator `_chunk_start_end_iterator(total, per)`:
`for i in range(total // per): yield per*i, per*(i+1)` followed by
`if (i+1)*per < total: yield (i+1)*per, total`.  When `per = 0` the Python
code raises ZeroDivisionError, and when `total // per = 0` the loop body
never runs so the trailing `if` reads the unbound name `i` (NameError); both
failures are modelled as `none`. -/
def chunkStartEnd (total per : ℕ) : Option (List (ℕ × ℕ)) :=
  if per = 0 then none
  else if total / per = 0 then none
  else some ((List.range (total / per)).map (fun i => (per * i, per * (i + 1)))
    ++ (if total / per * per < total then [(total / per * per, total)] else []))

/-- `iteratively_fit_genotype_conditioned_on_community` first clamps the
requested chunk size: `nposition = min(nposition, nposition_full)`, then
iterates `_chunk_start_end_iterator(nposition_full, nposition)`. -/
def clampedChunkStartEnd (total requested : ℕ) : Option (List (ℕ × ℕ)) :=
  chunkStartEnd total (min requested total)

/-- `Chained a l b`: the intervals of `l` are nonempty, consecutive (each
starts where the previous one ended), start at `a` and end at `b`.  This is
the strong form of "contiguous, disjoint, increasing, exhaustive". -/
def Chained : ℕ → List (ℕ × ℕ) → ℕ → Prop
  | a, [], b => a = b
  | a, p :: rest, b => p.1 = a ∧ a < p.2 ∧ Chained p.2 rest b

/-- The number of intervals of `l` that contain the point `x`. -/
def coverCount (x : ℕ) (l : List (ℕ × ℕ)) : ℕ :=
  (l.filter (fun p => decide (p.1 ≤ x) && decide (x < p.2))).length

theorem chained_le {a b : ℕ} : ∀ {l : List (ℕ × ℕ)}, Chained a l b → a ≤ b := by
  intro l
  induction l generalizing a with
  | nil => intro h; exact le_of_eq h
  | cons p rest ih =>
    intro h
    obtain ⟨-, h2, h3⟩ := h
    exact le_trans (le_of_lt h2) (ih h3)

theorem chained_append {a m b : ℕ} : ∀ {l1 l2 : List (ℕ × ℕ)},
    Chained a l1 m → Chained m l2 b → Chained a (l1 ++ l2) b := by
  intro l1
  induction l1 generalizing a with
  | nil => intro l2 h1 h2; rw [List.nil_append]; rw [show a = m from h1]; exact h2
  | cons p rest ih =>
    intro l2 h1 h2
    obtain ⟨k1, k2, k3⟩ := h1
    exact ⟨k1, k2, ih k3 h2⟩

theorem chained_range_map (per : ℕ) (hper : 1 ≤ per) :
    ∀ q, Chained 0 ((List.range q).map (fun i => (per * i, per * (i + 1)))) (per * q) := by
  intro q
  induction q with
  | zero => simp [Chained]
  | succ q ih =>
    rw [List.range_succ, List.map_append]
    refine chained_append ih ?_
    refine ⟨rfl, ?_, rfl⟩
    show per * q < per * (q + 1)
    have hms : per * (q + 1) = per * q + per := Nat.mul_succ per q
    omega

theorem chunkStartEnd_chained (total per : ℕ) (hper : 1 ≤ per) (hle : per ≤ total) :
    ∃ l, chunkStartEnd total per = some l ∧ Chained 0 l total := by
  have hq : 1 ≤ total / per := (Nat.one_le_div_iff (by omega)).mpr hle
  refine ⟨_, by rw [chunkStartEnd, if_neg (by omega), if_neg (by omega)], ?_⟩
  have hbase := chained_range_map per hper (total / per)
  have hcomm : per * (total / per) = total / per * per := Nat.mul_comm per (total / per)
  by_cases hrem : total / per * per < total
  · rw [if_pos hrem]
    refine chained_append hbase ?_
    exact ⟨hcomm.symm, by rw [hcomm]; exact hrem, rfl⟩
  · rw [if_neg hrem]
    have hdml : total / per * per ≤ total := Nat.div_mul_le_self total per
    have heq : per * (total / per) = total := by omega
    rw [List.append_nil]
    rw [heq] at hbase
    exact hbase

theorem chained_coverCount {x : ℕ} : ∀ {l : List (ℕ × ℕ)} {a b : ℕ}, Chained a l b →
    coverCount x l = if a ≤ x ∧ x < b then 1 else 0 := by
  intro l
  induction l with
  | nil =>
    intro a b h
    rw [show a = b from h, coverCount]
    simp only [List.filter_nil, List.length_nil]
    split
    next hc => omega
    next => rfl
  | cons p rest ih =>
    intro a b h
    obtain ⟨k1, k2, k3⟩ := h
    have hb := chained_le k3
    have hrest := ih k3
    by_cases hin : p.1 ≤ x ∧ x < p.2
    · obtain ⟨hin1, hin2⟩ := hin
      have hf : coverCount x (p :: rest) = coverCount x rest + 1 := by
        rw [coverCount, coverCount, List.filter_cons]
        simp [hin1, hin2]
      rw [hf, hrest]
      split_ifs with h1 h2 <;> omega
    · have hf : coverCount x (p :: rest) = coverCount x rest := by
        rw [coverCount, coverCount, List.filter_cons]
        rcases not_and_or.mp hin with hc | hc <;> simp [hc]
      rw [hf, hrest]
      rcases not_and_or.mp hin with hc | hc <;> split_ifs with h1 h2 <;> omega

/-- Concatenating the slices of a list cut along a chained interval list
reproduces the slice from `a` to `b`. -/
theorem chained_join_slices {α : Type} (xs : List α) :
    ∀ {l : List (ℕ × ℕ)} {a b : ℕ}, Chained a l b →
      (l.map (fun p => ((xs.drop p.1).take (p.2 - p.1)))).flatten
        = (xs.drop a).take (b - a) := by
  intro l
  induction l with
  | nil =>
    intro a b h
    rw [show a = b from h]
    simp
  | cons p rest ih =>
    intro a b h
    obtain ⟨k1, k2, k3⟩ := h
    have hb := chained_le k3
    rw [List.map_cons, List.flatten_cons, ih k3, k1]
    have hd : xs.drop p.2 = (xs.drop a).drop (p.2 - a) := by
      rw [List.drop_drop]
      congr 1
      omega
    rw [hd, ← List.take_add]
    congr 1
    omega

/-- Claim C3: for every `total ≥ per ≥ 1` the chunk iterator succeeds and
yields contiguous half-open intervals starting at 0 and ending at `total`
(`Chained`), which are therefore disjoint, increasing and cover `[0, total)`
exactly once (every `x < total` lies in exactly one interval and every
`x ≥ total` in none); in particular for `total = 105`, `per = 20` it yields
exactly the six listed chunks, the last taking the remainder. -/
theorem claim_c3 (total per : ℕ) (hper : 1 ≤ per) (hle : per ≤ total) :
    (∃ l, chunkStartEnd total per = some l ∧ Chained 0 l total ∧
      (∀ x, coverCount x l = if x < total then 1 else 0)) ∧
    chunkStartEnd 105 20
      = some [(0, 20), (20, 40), (40, 60), (60, 80), (80, 100), (100, 105)] := by
  constructor
  · obtain ⟨l, hl, hch⟩ := chunkStartEnd_chained total per hper hle
    refine ⟨l, hl, hch, fun x => ?_⟩
    rw [chained_coverCount hch]
    split_ifs with h1 h2 h3 <;> first | rfl | omega
  · rw [chunkStartEnd]
    norm_num
    decide

/-- Witness for claim C3 at the concrete input `total = 105`, `per = 20`. -/
theorem claim_c3_witness :
    (1 ≤ 20 ∧ 20 ≤ 105) ∧
    ((∃ l, chunkStartEnd 105 20 = some l ∧ Chained 0 l 105 ∧
      (∀ x, coverCount x l = if x < 105 then 1 else 0)) ∧
    chunkStartEnd 105 20
      = some [(0, 20), (20, 40), (40, 60), (60, 80), (80, 100), (100, 105)]) :=
  ⟨⟨by decide, by decide⟩, claim_c3 105 20 (by decide) (by decide)⟩

/-- Claim C10: the workflow clamps the requested chunk size to the total
position count before chunking (`clampedChunkStartEnd`), so for every
`total ≥ 1` and requested size `≥ 1` the iterator succeeds, and when the
request is at least `total` it yields the single full-range chunk
`[(0, total)]`; without the clamp the iterator's failing branch is real:
for `requested > total` the raw iterator fails (NameError on the unbound
loop variable), so that branch is unreachable only thanks to the clamp. -/
theorem claim_c10 (total requested : ℕ) (ht : 1 ≤ total) (hr : 1 ≤ requested) :
    (∃ l, clampedChunkStartEnd total requested = some l) ∧
    (total ≤ requested → clampedChunkStartEnd total requested = some [(0, total)]) ∧
    (total < requested → chunkStartEnd total requested = none) := by
  refine ⟨?_, ?_, ?_⟩
  · have h1 : 1 ≤ min requested total := by omega
    have h2 : min requested total ≤ total := by omega
    obtain ⟨l, hl, -⟩ := chunkStartEnd_chained total (min requested total) h1 h2
    exact ⟨l, hl⟩
  · intro hge
    have hmin : min requested total = total := by omega
    rw [clampedChunkStartEnd, hmin, chunkStartEnd,
      if_neg (by omega), if_neg (by rw [Nat.div_self (by omega)]; omega)]
    rw [Nat.div_self (by omega)]
    rw [show List.range 1 = [0] from rfl]
    simp
  · intro hgt
    have : total / requested = 0 := Nat.div_eq_of_lt hgt
    rw [chunkStartEnd, if_neg (by omega), this]
    simp

/-- Witness for claim C10 at the concrete input `total = 5`,
`requested = 7`. -/
theorem claim_c10_witness :
    (1 ≤ 5 ∧ 1 ≤ 7) ∧
    ((∃ l, clampedChunkStartEnd 5 7 = some l) ∧
    (5 ≤ 7 → clampedChunkStartEnd 5 7 = some [(0, 5)]) ∧
    (5 < 7 → chunkStartEnd 5 7 = none)) :=
  ⟨⟨by decide, by decide⟩, claim_c10 5 7 (by decide) (by decide)⟩

/-! ### `model.ParameterizedModel` -/

/-- A Python dict, modelled by its lookup function (`d.get(k)`). -/
def PyDict (α : Type) : Type := String → Option α

/-- `d.copy()` followed by `.update(u)`: entries of `u` win. -/
def pyUpdate {α : Type} (d u : PyDict α) : PyDict α := fun k =>
  match u k with
  | some v => some v
  | none => d k

/-- The empty dict `{}`. -/
def emptyDict {α : Type} : PyDict α := fun _ => none

/-- `{key: v}` added on top of `d`. -/
def dset {α : Type} (d : PyDict α) (key : String) (v : α) : PyDict α := fun k =>
  if k = key then some v else d k

/-- A coordinate label: the labels appearing in `coords` arrays are either
integers (e.g. from `range(n)`) or strings. -/
inductive Label where
  | num : ℕ → Label
  | str : String → Label
deriving DecidableEq

/-- A value passed for one dimension in the `coords` argument of
`ParameterizedModel.__init__`: either an int (meaning `range(n)`) or an
explicit label sequence. -/
inductive CoordSpec where
  | size : ℕ → CoordSpec
  | labels : List Label → CoordSpec
deriving DecidableEq

/-- `ParameterizedModel._coords_or_range`: an int becomes `range(n)`, any
other value passes through. -/
def coordsOrRange : CoordSpec → List Label
  | .size n => (List.range n).map Label.num
  | .labels ls => ls

/-- `model.Structure` (the generative Pyro function itself is opaque to this
development): the ordered dimension names, the mapping from output variable
to the dimension names it spans, and default hyperparameter values. -/
structure SfStructure (V : Type) where
  dims : List String
  description : PyDict (List String)
  defaultHyperparameters : PyDict V

/-- `model.ParameterizedModel`: a Structure bound to concrete per-dimension
coordinate labels, dtype/device, hyperparameter values and fixed/observed
data (`V` is the abstract type of tensor-valued entries). -/
structure PModel (V : Type) where
  struc : SfStructure V
  coords : PyDict (List Label)
  dtype : String
  device : String
  hyperparameters : PyDict V
  data : PyDict V

/-- `ParameterizedModel.__init__`: coords are re-derived as
`{k: _coords_or_range(coords[k]) for k in structure.dims}` (a key missing
from `coordsIn` would raise KeyError in Python; here the entry is simply
absent), hyperparameters are the structure defaults updated with the given
overrides, and data is stored as passed (`data=None` is the caller passing
`emptyDict`).  The allele-ordering check only emits a warning and is not
modelled. -/
def pmodelInit {V : Type} (s : SfStructure V) (coordsIn : PyDict CoordSpec)
    (dtype device : String) (dataIn : PyDict V) (hyperIn : PyDict V) : PModel V :=
  { struc := s
    coords := fun k => if k ∈ s.dims then (coordsIn k).map coordsOrRange else none
    dtype := dtype
    device := device
    hyperparameters := pyUpdate s.defaultHyperparameters hyperIn
    data := dataIn }

/-- The stored coords of a model, viewed again as constructor input (label
lists pass through `_coords_or_range` unchanged). -/
def coordsAsSpecs {V : Type} (m : PModel V) : PyDict CoordSpec := fun k =>
  (m.coords k).map CoordSpec.labels

/-- `ParameterizedModel.with_hyperparameters`: a new model built from a copy
of the current hyperparameters updated with the overrides; everything else
passed through. -/
def PModel.withHyperparameters {V : Type} (m : PModel V) (u : PyDict V) : PModel V :=
  pmodelInit m.struc (coordsAsSpecs m) m.dtype m.device m.data
    (pyUpdate m.hyperparameters u)

/-- `ParameterizedModel.with_amended_coords`: a new model built from a copy
of the current coords updated with the amendments. -/
def PModel.withAmendedCoords {V : Type} (m : PModel V) (u : PyDict CoordSpec) :
    PModel V :=
  pmodelInit m.struc (pyUpdate (coordsAsSpecs m) u) m.dtype m.device m.data
    m.hyperparameters

/-- `ParameterizedModel.condition`: a new model built from a copy of the
current data updated with the new observations. -/
def PModel.condition {V : Type} (m : PModel V) (u : PyDict V) : PModel V :=
  pmodelInit m.struc (coordsAsSpecs m) m.dtype m.device (pyUpdate m.data u)
    m.hyperparameters

/-- Well-formedness maintained by the constructor: coords hold entries
exactly for the structure's dimensions, and every defaulted hyperparameter
is present. -/
def PModel.WF {V : Type} (m : PModel V) : Prop :=
  (∀ k, k ∉ m.struc.dims → m.coords k = none) ∧
  (∀ k, m.struc.defaultHyperparameters k ≠ none → m.hyperparameters k ≠ none)

theorem pmodelInit_WF {V : Type} (s : SfStructure V) (coordsIn : PyDict CoordSpec)
    (dtype device : String) (dataIn hyperIn : PyDict V) :
    (pmodelInit s coordsIn dtype device dataIn hyperIn).WF := by
  constructor
  · intro k hk
    simp only [pmodelInit] at hk ⊢
    rw [if_neg hk]
  · intro k hk
    simp only [pmodelInit, pyUpdate] at hk ⊢
    cases hu : hyperIn k with
    | none => exact hk
    | some v => exact fun h => Option.noConfusion h

/-- Claim C5: `condition`, `with_hyperparameters` and `with_amended_coords`
are pure: each returns a new `ParameterizedModel` in which exactly the one
targeted field is replaced (with Python `dict.copy()`-then-`update`
semantics; amended coords are restricted to the structure's dimensions as
`__init__` always does) while `struc`, `dtype`, `device` and the remaining
two of `coords`/`hyperparameters`/`data` are identical to the original's.
The original model, being a value of this embedding, is never mutated. -/
theorem claim_c5 {V : Type} (m : PModel V) (d u : PyDict V) (cu : PyDict CoordSpec)
    (hwf : m.WF) :
    ((m.condition d).coords = m.coords ∧
      (m.condition d).hyperparameters = m.hyperparameters ∧
      (m.condition d).data = pyUpdate m.data d ∧
      (m.condition d).struc = m.struc ∧
      (m.condition d).dtype = m.dtype ∧ (m.condition d).device = m.device) ∧
    ((m.withHyperparameters u).coords = m.coords ∧
      (m.withHyperparameters u).data = m.data ∧
      (m.withHyperparameters u).hyperparameters = pyUpdate m.hyperparameters u ∧
      (m.withHyperparameters u).struc = m.struc ∧
      (m.withHyperparameters u).dtype = m.dtype ∧
      (m.withHyperparameters u).device = m.device) ∧
    ((m.withAmendedCoords cu).data = m.data ∧
      (m.withAmendedCoords cu).hyperparameters = m.hyperparameters ∧
      (m.withAmendedCoords cu).coords
        = pyUpdate m.coords
            (fun k => if k ∈ m.struc.dims then (cu k).map coordsOrRange else none) ∧
      (m.withAmendedCoords cu).struc = m.struc ∧
      (m.withAmendedCoords cu).dtype = m.dtype ∧
      (m.withAmendedCoords cu).device = m.device) := by
  obtain ⟨hwf1, hwf2⟩ := hwf
  have hcoords : (fun k => if k ∈ m.struc.dims
      then ((coordsAsSpecs m) k).map coordsOrRange else none) = m.coords := by
    funext k
    by_cases hk : k ∈ m.struc.dims
    · rw [if_pos hk]
      simp only [coordsAsSpecs, Option.map_map]
      cases m.coords k <;> rfl
    · rw [if_neg hk, hwf1 k hk]
  have hhyper : ∀ hp : PyDict V,
      pyUpdate m.struc.defaultHyperparameters (pyUpdate m.hyperparameters hp)
        = pyUpdate m.hyperparameters hp := by
    intro hp
    funext k
    simp only [pyUpdate]
    cases hh : hp k with
    | some v => rfl
    | none =>
      cases hm : m.hyperparameters k with
      | some v => rfl
      | none =>
        cases hd : m.struc.defaultHyperparameters k with
        | none => rfl
        | some v => exact absurd hm (hwf2 k (by rw [hd]; exact fun h => Option.noConfusion h))
  have hid : pyUpdate m.struc.defaultHyperparameters m.hyperparameters
      = m.hyperparameters := by
    funext k
    simp only [pyUpdate]
    cases hm : m.hyperparameters k with
    | some v => rfl
    | none =>
      cases hd : m.struc.defaultHyperparameters k with
      | none => rfl
      | some v => exact absurd hm (hwf2 k (by rw [hd]; exact fun h => Option.noConfusion h))
  refine ⟨⟨?_, ?_, rfl, rfl, rfl, rfl⟩, ⟨?_, rfl, ?_, rfl, rfl, rfl⟩,
    ⟨rfl, ?_, ?_, rfl, rfl, rfl⟩⟩
  · exact hcoords
  · exact hid
  · exact hcoords
  · exact hhyper u
  · exact hid
  · show (fun k => if k ∈ m.struc.dims
        then ((pyUpdate (coordsAsSpecs m) cu) k).map coordsOrRange else none)
      = pyUpdate m.coords
          (fun k => if k ∈ m.struc.dims then (cu k).map coordsOrRange else none)
    funext k
    simp only [pyUpdate, coordsAsSpecs]
    by_cases hk : k ∈ m.struc.dims
    · rw [if_pos hk, if_pos hk]
      cases hc : cu k with
      | some sp => rfl
      | none =>
        simp only [Option.map_map]
        cases m.coords k <;> rfl
    · rw [if_neg hk, if_neg hk, hwf1 k hk]

/-- A tiny concrete model for the witness of claim C5. -/
def c5Model : PModel ℕ :=
  { struc :=
      { dims := ["strain", "sample"]
        description := dset emptyDict "genotype" ["strain"]
        defaultHyperparameters := dset emptyDict "alpha" 7 }
    coords := fun k =>
      if k = "strain" then some [Label.num 0, Label.num 1]
      else if k = "sample" then some [Label.str "s0"] else none
    dtype := "torch.float32"
    device := "cpu"
    hyperparameters := dset emptyDict "alpha" 7
    data := emptyDict }

/-- Witness for claim C5 at the concrete model `c5Model`. -/
theorem claim_c5_witness :
    c5Model.WF ∧
    (((c5Model.condition (dset emptyDict "y" 3)).coords = c5Model.coords ∧
      (c5Model.condition (dset emptyDict "y" 3)).hyperparameters
        = c5Model.hyperparameters ∧
      (c5Model.condition (dset emptyDict "y" 3)).data
        = pyUpdate c5Model.data (dset emptyDict "y" 3) ∧
      (c5Model.condition (dset emptyDict "y" 3)).struc = c5Model.struc ∧
      (c5Model.condition (dset emptyDict "y" 3)).dtype = c5Model.dtype ∧
      (c5Model.condition (dset emptyDict "y" 3)).device = c5Model.device) ∧
    ((c5Model.withHyperparameters (dset emptyDict "alpha" 9)).coords
        = c5Model.coords ∧
      (c5Model.withHyperparameters (dset emptyDict "alpha" 9)).data = c5Model.data ∧
      (c5Model.withHyperparameters (dset emptyDict "alpha" 9)).hyperparameters
        = pyUpdate c5Model.hyperparameters (dset emptyDict "alpha" 9) ∧
      (c5Model.withHyperparameters (dset emptyDict "alpha" 9)).struc
        = c5Model.struc ∧
      (c5Model.withHyperparameters (dset emptyDict "alpha" 9)).dtype
        = c5Model.dtype ∧
      (c5Model.withHyperparameters (dset emptyDict "alpha" 9)).device
        = c5Model.device) ∧
    ((c5Model.withAmendedCoords
          (dset emptyDict "strain" (CoordSpec.size 3))).data = c5Model.data ∧
      (c5Model.withAmendedCoords
          (dset emptyDict "strain" (CoordSpec.size 3))).hyperparameters
        = c5Model.hyperparameters ∧
      (c5Model.withAmendedCoords
          (dset emptyDict "strain" (CoordSpec.size 3))).coords
        = pyUpdate c5Model.coords
            (fun k => if k ∈ c5Model.struc.dims
              then ((dset emptyDict "strain" (CoordSpec.size 3)) k).map coordsOrRange
              else none) ∧
      (c5Model.withAmendedCoords
          (dset emptyDict "strain" (CoordSpec.size 3))).struc = c5Model.struc ∧
      (c5Model.withAmendedCoords
          (dset emptyDict "strain" (CoordSpec.size 3))).dtype = c5Model.dtype ∧
      (c5Model.withAmendedCoords
          (dset emptyDict "strain" (CoordSpec.size 3))).device = c5Model.device)) := by
  have hwf : c5Model.WF := by
    constructor
    · intro k hk
      simp only [c5Model, List.mem_cons, List.not_mem_nil, or_false] at hk
      push_neg at hk
      show (if k = "strain" then some [Label.num 0, Label.num 1]
        else if k = "sample" then some [Label.str "s0"] else none) = none
      rw [if_neg hk.1, if_neg hk.2]
    · intro k hk
      exact hk
  exact ⟨hwf, claim_c5 c5Model (dset emptyDict "y" 3) (dset emptyDict "alpha" 9)
    (dset emptyDict "strain" (CoordSpec.size 3)) hwf⟩

/-! ### `estimation.OPTIMIZERS` and `get_scheduled_optimization_stepper` -/

/-- The optimizer names registered in the module-level `OPTIMIZERS` dict. -/
def optimizerNames : List String :=
  ["Adam", "Adamax", "Adadelta", "Adagrad", "AdamW", "RMSprop"]

/-- The default optimizer kwargs registered for every optimizer:
`dict(lr=0.1)`. -/
def defaultOptimizerKwargs : PyDict ℚ := dset emptyDict "lr" (1 / 10)

/-- The module-level `OPTIMIZERS` mapping at import time: each registered
name maps to its (mutable, shared) default-kwargs dict. -/
def OPTIMIZERS0 : String → Option (PyDict ℚ) := fun name =>
  if name ∈ optimizerNames then some defaultOptimizerKwargs else none

/-- The kwargs handling of `get_scheduled_optimization_stepper`:
`optimizer, default_optimizer_kwargs = OPTIMIZERS[optimizer_name]`,
`_optimizer_kwargs = default_optimizer_kwargs` (NO copy), then
`_optimizer_kwargs.update(optimizer_kwargs)` when kwargs were supplied.
Because `_optimizer_kwargs` aliases the dict stored in the module-level
table, the in-place `update` also rewrites the table entry; the function
returns the kwargs used for this call together with the table state after
the call.  A missing optimizer name is a KeyError (`none`). -/
def getStepperOptKwargs (table : String → Option (PyDict ℚ)) (name : String)
    (optimizerKwargs : Option (PyDict ℚ)) :
    Option (PyDict ℚ × (String → Option (PyDict ℚ))) :=
  match table name with
  | none => none
  | some d =>
    match optimizerKwargs with
    | none => some (d, table)
    | some u =>
      let d2 := pyUpdate d u
      some (d2, fun n => if n = name then some d2 else table n)

/-- Claim C7: FALSIFIED BY THE CODE (aliasing bug).  A first
`estimate_parameters` call supplying `optimizer_kwargs={"lr": 0.01}` for
Adamax mutates the shared default dict inside `OPTIMIZERS`; a second call in
the same process that omits `optimizer_kwargs` then configures Adamax with
learning rate 0.01, not the documented default 0.1.  The first conjunct
shows the fresh-table behaviour the claim expects (lr 0.1); the second runs
the two calls in sequence and finds lr 0.01. -/
theorem claim_c7_default_lr_mutated :
    ((getStepperOptKwargs OPTIMIZERS0 "Adamax" none).map (fun r => r.1 "lr")
      = some (some (1 / 10))) ∧
    ((getStepperOptKwargs OPTIMIZERS0 "Adamax"
        (some (dset emptyDict "lr" (1 / 100)))).bind
      (fun r => (getStepperOptKwargs r.2 "Adamax" none).map (fun r2 => r2.1 "lr"))
      = some (some (1 / 100))) ∧
    (1 : ℚ) / 100 ≠ 1 / 10 := by
  refine ⟨rfl, rfl, by norm_num⟩

/-! ### `estimation.estimate_parameters` call interface and
`workflow.fit_metagenotype_complex` -/

/-- The parameter names of `def estimate_parameters(...)` in
src/sfacts/estimation.py (there is no `**kwargs` catch-all). -/
def estimateParametersParamNames : List String :=
  ["model", "dtype", "device", "initialize_params", "jit", "maxiter", "lagA",
   "lagB", "optimizer_name", "optimizer_kwargs", "quiet",
   "ignore_jit_warnings", "seed", "catch_keyboard_interrupt"]

/-- The keyword-argument names `fit_metagenotype_complex` passes to
`sf.estimation.estimate_parameters` (the model is passed positionally), on
top of whatever the caller put into `estimation_kwargs`. -/
def fitMetagenotypeEstimationKw (estimationKwNames : List String) : List String :=
  ["quiet", "device", "dtype", "anneal_hyperparameters", "annealiter",
   "initialize_params"] ++ estimationKwNames

/-- Python's keyword-argument check for a function without `**kwargs`: every
passed keyword must be a declared parameter name, otherwise the call raises
TypeError before the function body runs. -/
def kwargsAccepted (passed accepted : List String) : Bool :=
  passed.all (fun k => accepted.contains k)

/-- The labelled-tensor Metagenotype collaborator, as far as the workflow
needs it: coordinate accessors, the counts-and-totals dict it is conditioned
on (`to_counts_and_totals()`), the same for a positional sub-selection
(`mlift("isel", position=slice(start, end)).to_counts_and_totals()`), and
the underlying data array (abstract value of type `V`). -/
structure Metagenotype (V : Type) where
  sample : List Label
  position : List Label
  allele : List Label
  countsTotals : PyDict V
  chunkCounts : ℕ → ℕ → PyDict V
  values : V

/-- One labelled result array (`xr.DataArray`): its dims, per-dim coordinate
labels, and abstract numeric content. -/
structure DataArray (V : Type) where
  dims : List String
  coords : PyDict (List Label)
  values : V

/-- A `World`: a bundle of labelled result arrays keyed by variable name. -/
def World (V : Type) : Type := PyDict (DataArray V)

/-- `ParameterizedModel.format_world(data)`: for every variable in the
structure's description, wrap the raw array with the declared dims and the
model's current coordinate labels for those dims.  The raw estimate is a
total map from variable names (Pyro's `Predictive` returns a sample for
every site). -/
def formatWorld {V : Type} (m : PModel V) (data : String → V) : World V :=
  fun k => (m.struc.description k).map (fun kdims =>
    { dims := kdims
      coords := fun d => if d ∈ kdims then m.coords d else none
      values := data k })

/-- The return value of `estimate_parameters` after the loop: the posterior
estimate per variable (the SVI fit and `.mean(0).squeeze()` extraction is
abstracted as `estRaw`) packaged through `model.format_world`. -/
def runEstimate {V : Type} (estRaw : PModel V → String → V) (m : PModel V) :
    World V :=
  formatWorld m (estRaw m)

/-- `fit_metagenotype_complex` (single-phase fit): builds a Parameterized
Model sized to the metagenotype's sample/position/allele coordinates and a
caller-chosen strain count, conditions it on `to_counts_and_totals()`, then
invokes `sf.estimation.estimate_parameters` with the keywords `quiet`,
`device`, `dtype`, `anneal_hyperparameters`, `annealiter`,
`initialize_params` and `**estimation_kwargs`.  The keyword check of that
call is modelled explicitly because `estimate_parameters` in this tree has
no such annealing parameters; when the keywords are accepted the single
estimation result and history are returned as `(est, [est], [history])`
together with the reported reconstruction error `evalFn est mg` (the NMF
warm start only affects `initialize_params`, which is abstracted into
`estimator`, so it is not modelled separately). -/
def fitMetagenotypeComplex {V : Type} (s : SfStructure V) (mg : Metagenotype V)
    (nstrain : ℕ) (hyper dataOn : PyDict V) (dtype device : String)
    (estimationKwNames : List String)
    (estimator : PModel V → World V × List ElboVal)
    (evalFn : World V → Metagenotype V → ℚ) :
    Except String (World V × List (World V) × List (List ElboVal) × ℚ) :=
  let pmodel := (pmodelInit s
    (dset (dset (dset (dset emptyDict "sample" (CoordSpec.labels mg.sample))
      "position" (CoordSpec.labels mg.position))
      "allele" (CoordSpec.labels mg.allele))
      "strain" (CoordSpec.size nstrain))
    dtype device dataOn hyper).condition mg.countsTotals
  if kwargsAccepted (fitMetagenotypeEstimationKw estimationKwNames)
      estimateParametersParamNames then
    let r := estimator pmodel
    Except.ok (r.1, [r.1], [r.2], evalFn r.1 mg)
  else
    Except.error "TypeError: estimate_parameters() got an unexpected keyword argument"

/-- Claim C4: FALSIFIED BY THE CODE.  `fit_metagenotype_complex` always
passes the keywords `anneal_hyperparameters` and `annealiter` to
`estimate_parameters`, but the `estimate_parameters` signature in
src/sfacts/estimation.py accepts neither (and has no `**kwargs`), so every
invocation raises TypeError before any estimation happens — the function can
never perform the estimation call and return the fitted result the claim
describes. -/
theorem claim_c4_always_type_error {V : Type} (s : SfStructure V)
    (mg : Metagenotype V) (nstrain : ℕ) (hyper dataOn : PyDict V)
    (dtype device : String) (estimationKwNames : List String)
    (estimator : PModel V → World V × List ElboVal)
    (evalFn : World V → Metagenotype V → ℚ) :
    fitMetagenotypeComplex s mg nstrain hyper dataOn dtype device
      estimationKwNames estimator evalFn
      = Except.error
          "TypeError: estimate_parameters() got an unexpected keyword argument" := by
  have hbad : kwargsAccepted (fitMetagenotypeEstimationKw estimationKwNames)
      estimateParametersParamNames = false := by
    rw [kwargsAccepted, fitMetagenotypeEstimationKw, List.all_append]
    have : (["quiet", "device", "dtype", "anneal_hyperparameters", "annealiter",
        "initialize_params"].all
          (fun k => estimateParametersParamNames.contains k)) = false := by decide
    rw [this, Bool.false_and]
  rw [fitMetagenotypeComplex]
  rw [if_neg (by rw [hbad]; exact fun h => Bool.noConfusion h)]

/-! ### `ParameterizedModel.simulate` and `simulate_world` -/

/-- numpy `.squeeze()` on an array shape: every axis of length 1 is
removed. -/
def pySqueeze (shape : List ℕ) : List ℕ := shape.filter (fun d => d ≠ 1)

/-- The declared shape of one model variable: the sizes (coordinate-label
counts) of the dims listed for it in the structure's description. -/
def PModel.varShape {V : Type} (m : PModel V) (k : String) : Option (List ℕ) :=
  (m.struc.description k).map (fun kdims =>
    kdims.map (fun d => ((m.coords d).getD []).length))

/-- The shape of `obs[k].detach().cpu().numpy().squeeze()` in
`ParameterizedModel.simulate`: `pyro.infer.Predictive(self, num_samples=n)`
prepends a sample axis of length `n` to the variable's shape, and the only
post-processing is `squeeze` — there is no `.mean(0)` here (unlike the
estimate extraction in `estimate_parameters`). -/
def PModel.simulateShape {V : Type} (m : PModel V) (n : ℕ) (k : String) :
    Option (List ℕ) :=
  (m.varShape k).map (fun vs => pySqueeze (n :: vs))

/-- A concrete model for claims about `simulate`: one variable `"genotype"`
spanning a `"strain"` dimension of size 3. -/
def simModel : PModel ℕ :=
  { struc :=
      { dims := ["strain"]
        description := dset emptyDict "genotype" ["strain"]
        defaultHyperparameters := emptyDict }
    coords := fun k => if k = "strain"
      then some [Label.num 0, Label.num 1, Label.num 2] else none
    dtype := "torch.float32"
    device := "cpu"
    hyperparameters := emptyDict
    data := emptyDict }

/-- Claim C8, counterexample.  For `n = 2` and a variable of declared shape
`[3]`, `simulate` returns an array of shape `[2, 3]`: `squeeze` does not
remove the leading sample axis (its length is 2, not 1) and no averaging
over it takes place, so the result does NOT have the variable's declared
shape without a leading sample dimension. -/
theorem claim_c8_counterexample :
    simModel.simulateShape 2 "genotype" = some [2, 3] ∧
    simModel.varShape "genotype" = some [3] ∧
    simModel.simulateShape 2 "genotype" ≠ simModel.varShape "genotype" := by
  refine ⟨rfl, rfl, ?_⟩
  rw [show simModel.simulateShape 2 "genotype" = some [2, 3] from rfl,
    show simModel.varShape "genotype" = some [3] from rfl]
  simp

/-- Claim C8 (amended): `simulate` draws `n` joint samples, detaches them,
and applies numpy `squeeze` to each array — removing every length-1 axis and
performing no averaging.  For `n = 1` (and no declared length-1 dims) the
leading sample axis is removed, so the single draw passes through with the
declared shape; for `n ≥ 2` the leading sample axis of length `n` is kept in
front of the squeezed declared shape. -/
theorem claim_c8_amended {V : Type} (m : PModel V) (k : String) (n : ℕ)
    (vs : List ℕ) (hv : m.varShape k = some vs) :
    (1 ∉ vs → m.simulateShape 1 k = some vs) ∧
    (2 ≤ n → m.simulateShape n k = some (n :: vs.filter (fun d => d ≠ 1))) := by
  constructor
  · intro hno
    rw [PModel.simulateShape, hv, Option.map_some']
    congr 1
    have h1 : pySqueeze (1 :: vs) = pySqueeze vs := by simp [pySqueeze]
    rw [h1, pySqueeze]
    refine List.filter_eq_self.mpr ?_
    intro a ha
    simp only [ne_eq, decide_eq_true_eq]
    intro h; rw [h] at ha; exact hno ha
  · intro hn
    rw [PModel.simulateShape, hv, Option.map_some']
    congr 1
    have hne : n ≠ 1 := by omega
    have h2 : pySqueeze (n :: vs) = n :: pySqueeze vs := by
      simp [pySqueeze, hne]
    rw [h2, pySqueeze]

/-- Witness for the amended claim C8 at the concrete model `simModel`,
`n = 2`. -/
theorem claim_c8_amended_witness :
    simModel.varShape "genotype" = some [3] ∧
    ((1 ∉ [3] → simModel.simulateShape 1 "genotype" = some [3]) ∧
    (2 ≤ 2 → simModel.simulateShape 2 "genotype"
      = some (2 :: [3].filter (fun d => d ≠ 1)))) :=
  ⟨rfl, claim_c8_amended simModel "genotype" 2 [3] rfl⟩

/-- The global RNG state of the process, advanced by every draw. -/
abbrev RngState := ℕ

/-- Modelled from the spec: `sfacts.pyro_util.set_random_seed` (the module is
not part of this source tree).  "Randomness is controlled by an explicit
seed parameter …; omitting it falls back to non-reproducible process state,
with a warning unless suppressed": an explicit seed deterministically resets
the RNG state; `None` leaves the ambient state untouched. -/
def setRandomSeed (seed : Option ℕ) (st : RngState) : RngState :=
  match seed with
  | some s => s
  | none => st

/-- `ParameterizedModel.simulate(n, seed)`: seeds the RNG from its own
`seed` argument, then draws from `pyro.infer.Predictive` (abstracted as
`draw`, which consumes and advances the global RNG state); the per-variable
squeeze is covered by `PModel.simulateShape` above. -/
def PModel.simulateRun {V : Type} (_m : PModel V)
    (draw : RngState → (String → V) × RngState) (_n : ℕ) (seed : Option ℕ)
    (st : RngState) : (String → V) × RngState :=
  draw (setRandomSeed seed st)

/-- `ParameterizedModel.simulate_world(seed)`: the source calls
`self.format_world(self.simulate(n=1))` — the `seed` parameter is accepted
but NOT forwarded to `simulate`, so the draw always uses the ambient RNG
state. -/
def PModel.simulateWorldRun {V : Type} (m : PModel V)
    (draw : RngState → (String → V) × RngState) (seed : Option ℕ)
    (st : RngState) : World V × RngState :=
  let p := m.simulateRun draw 1 none st
  (formatWorld m p.1, p.2)

/-- A concrete Predictive draw for claim C9: the drawn value records the
current RNG state, and the state advances. -/
def c9Draw : RngState → (String → ℕ) × RngState := fun st => (fun _ => st, st + 1)

/-- Claim C9: FALSIFIED BY THE CODE.  First conjunct: `simulate_world`
ignores its `seed` argument entirely (the result is the same whatever seed
is passed, because `self.simulate(n=1)` is called without it), so the seed
is not threaded through to the random source.  Second conjunct: two
successive calls of `simulate_world(seed=0)` — the second starting from the
RNG state the first left behind — produce different Worlds, against the
claimed reproducibility.  (Had `simulate` been called with the seed,
`setRandomSeed` would have reset the state both times.) -/
theorem claim_c9_seed_ignored :
    (∀ (V : Type) (m : PModel V) (draw : RngState → (String → V) × RngState)
      (s1 s2 : Option ℕ) (st : RngState),
        m.simulateWorldRun draw s1 st = m.simulateWorldRun draw s2 st) ∧
    ((simModel.simulateWorldRun c9Draw (some 0) 0).1
      ≠ (simModel.simulateWorldRun c9Draw (some 0)
          (simModel.simulateWorldRun c9Draw (some 0) 0).2).1) := by
  constructor
  · intro V m draw s1 s2 st
    rfl
  · intro h
    have hv := congrArg (fun w => (w "genotype").map (fun a => a.values)) h
    dsimp only at hv
    rw [show ((simModel.simulateWorldRun c9Draw (some 0) 0).1 "genotype").map
        (fun a => a.values) = some 0 from rfl] at hv
    rw [show ((simModel.simulateWorldRun c9Draw (some 0)
        (simModel.simulateWorldRun c9Draw (some 0) 0).2).1 "genotype").map
        (fun a => a.values) = some 1 from rfl] at hv
    exact Option.noConfusion hv (fun h01 => Nat.noConfusion h01)

/-! ### `workflow.iteratively_fit_genotype_conditioned_on_community` -/

/-- The labelled Community collaborator: per-sample/per-strain coordinate
labels and the underlying proportions array. -/
structure Community (V : Type) where
  sample : List Label
  strain : List Label
  values : V

/-- Collect a list of optionals, failing on the first `none` (Python would
raise an AttributeError if a chunk world lacked its genotype). -/
def allSome {α : Type} : List (Option α) → Option (List α)
  | [] => some []
  | none :: _ => none
  | some a :: t => (allSome t).map (fun l => a :: l)

/-- `xr.concat(arrays, dim=dim)`: the coordinate labels along `dim` are the
concatenation of the pieces' labels in order; other coordinates and the dims
are aligned with (taken from) the first piece, and the raw contents are
concatenated by the tensor substrate (`concatV`). -/
def concatAlong {V : Type} (dim : String) (concatV : List V → V) :
    List (DataArray V) → Option (DataArray V)
  | [] => none
  | h :: t => some
    { dims := h.dims
      coords := fun d => if d = dim
        then some (((h :: t).map (fun a => (a.coords d).getD [])).flatten)
        else h.coords d
      values := concatV ((h :: t).map (fun a => a.values)) }

/-- The metagenotype as a labelled array (for the final
`assign(metagenotype=metagenotype_full.data)`). -/
def mgDataArray {V : Type} (mg : Metagenotype V) : DataArray V :=
  { dims := ["sample", "position", "allele"]
    coords := fun d =>
      if d = "sample" then some mg.sample
      else if d = "position" then some mg.position
      else if d = "allele" then some mg.allele
      else none
    values := mg.values }

/-- The Parameterized Model fitted for one chunk `se = (start, end)`: the
shared base model (community fixed as observed `pi`, position coords
initially `range(nposition)` after the clamp) with coords amended to the
chunk's position labels and conditioned on the chunk's counts-and-totals. -/
def chunkModel {V : Type} (s : SfStructure V) (mg : Metagenotype V)
    (comm : Community V) (np : ℕ) (hyper : PyDict V) (dtype device : String)
    (se : ℕ × ℕ) : PModel V :=
  ((pmodelInit s
      (dset (dset (dset (dset emptyDict "sample" (CoordSpec.labels comm.sample))
        "position" (CoordSpec.size np))
        "allele" (CoordSpec.labels mg.allele))
        "strain" (CoordSpec.labels comm.strain))
      dtype device (dset emptyDict "pi" comm.values) hyper).withAmendedCoords
    (dset emptyDict "position"
      (CoordSpec.labels ((mg.position.drop se.1).take (se.2 - se.1))))).condition
    (mg.chunkCounts se.1 se.2)

/-- `iteratively_fit_genotype_conditioned_on_community`: clamp the chunk
size, iterate the chunk intervals, fit each chunk's model independently,
collect the fitted genotype arrays, concatenate them along `position`, and
reassemble the final World from the last chunk's estimate with the
position/allele-indexed variables dropped and the concatenated genotype and
the full metagenotype assigned.  Returns the final World and the per-chunk
estimate list (histories are diagnostics of the abstracted estimation engine
and are not tracked). -/
def iterativelyFitGenotype {V : Type} (s : SfStructure V) (mg : Metagenotype V)
    (comm : Community V) (nposition : ℕ) (hyper : PyDict V)
    (dtype device : String) (estRaw : PModel V → String → V)
    (concatV : List V → V) : Option (World V × List (World V)) :=
  (clampedChunkStartEnd mg.position.length nposition).bind (fun chunks =>
    let worlds := chunks.map (fun se =>
      runEstimate estRaw
        (chunkModel s mg comm (min nposition mg.position.length) hyper dtype
          device se))
    worlds.getLast?.bind (fun lastW =>
      (allSome (worlds.map (fun w => w "genotype"))).bind (fun gs =>
        (concatAlong "position" concatV gs).map (fun gda =>
          let finalW : World V := fun k =>
            if k = "genotype" then some gda
            else if k = "metagenotype" then some (mgDataArray mg)
            else (lastW k).bind (fun a =>
              if "position" ∈ a.dims ∨ "allele" ∈ a.dims then none else some a)
          (finalW, worlds)))))

theorem allSome_map_some {α β : Type} (g : α → β) :
    ∀ l : List α, allSome (l.map (fun x => some (g x))) = some (l.map g) := by
  intro l
  induction l with
  | nil => rfl
  | cons a t ih => rw [List.map_cons, List.map_cons, allSome, ih, Option.map_some']

theorem chunkModel_coords_position {V : Type} (s : SfStructure V)
    (mg : Metagenotype V) (comm : Community V) (np : ℕ) (hyper : PyDict V)
    (dtype device : String) (se : ℕ × ℕ) (hpos : "position" ∈ s.dims) :
    (chunkModel s mg comm np hyper dtype device se).coords "position"
      = some ((mg.position.drop se.1).take (se.2 - se.1)) := by
  simp only [chunkModel, PModel.condition, PModel.withAmendedCoords, pmodelInit,
    coordsAsSpecs, pyUpdate, dset, emptyDict, hpos, if_true, Option.map_some',
    coordsOrRange]

theorem formatWorld_lookup {V : Type} (m : PModel V) (data : String → V)
    (k : String) (kdims : List String) (h : m.struc.description k = some kdims) :
    formatWorld m data k = some
      { dims := kdims
        coords := fun d => if d ∈ kdims then m.coords d else none
        values := data k } := by
  rw [formatWorld, h, Option.map_some']

/-- Claim C6: in every chunked genotype fit, the per-chunk fitted genotype
arrays concatenated along `position` in chunk order yield a genotype whose
position coordinate equals, element for element and in order, the original
Metagenotype's position coordinate.  Hypotheses: positions nonempty, a
positive requested chunk size, `position` among the structure's dims, and a
genotype variable described over dims containing `position`. -/
theorem claim_c6 {V : Type} (s : SfStructure V) (mg : Metagenotype V)
    (comm : Community V) (nposition : ℕ) (hyper : PyDict V)
    (dtype device : String) (estRaw : PModel V → String → V)
    (concatV : List V → V) (gdims : List String)
    (hpos : "position" ∈ s.dims)
    (hdesc : s.description "genotype" = some gdims)
    (hgp : "position" ∈ gdims)
    (hnp : 1 ≤ nposition) (hmg : mg.position ≠ []) :
    ∃ w worlds,
      iterativelyFitGenotype s mg comm nposition hyper dtype device estRaw concatV
        = some (w, worlds) ∧
      ∃ gda, w "genotype" = some gda ∧ gda.coords "position" = some mg.position := by
  have htot : 1 ≤ mg.position.length := by
    have := List.length_pos.mpr hmg
    omega
  have hmin1 : 1 ≤ min nposition mg.position.length := by omega
  have hmin2 : min nposition mg.position.length ≤ mg.position.length := by omega
  obtain ⟨chunks, hck, hch⟩ :=
    chunkStartEnd_chained mg.position.length (min nposition mg.position.length)
      hmin1 hmin2
  have hclamp : clampedChunkStartEnd mg.position.length nposition = some chunks := by
    rw [clampedChunkStartEnd, hck]
  have hchunks_ne : chunks ≠ [] := by
    intro hnil
    rw [hnil] at hch
    exact absurd (show (0 : ℕ) = mg.position.length from hch) (by omega)
  obtain ⟨c0, crest, rfl⟩ := List.exists_cons_of_ne_nil hchunks_ne
  simp only [iterativelyFitGenotype, hclamp, Option.some_bind]
  set np := min nposition mg.position.length with hnp_def
  set gdaOf := fun se : ℕ × ℕ =>
    ({ dims := gdims
       coords := fun d => if d ∈ gdims
         then (chunkModel s mg comm np hyper dtype device se).coords d else none
       values := estRaw (chunkModel s mg comm np hyper dtype device se)
         "genotype" } : DataArray V) with hgdaOf
  set f := fun se : ℕ × ℕ =>
    runEstimate estRaw (chunkModel s mg comm np hyper dtype device se) with hf
  have hmap : ((c0 :: crest).map f).map (fun w => w "genotype")
      = (c0 :: crest).map (fun se => some (gdaOf se)) := by
    rw [List.map_map]
    refine List.map_congr_left ?_
    intro se _
    show f se "genotype" = some (gdaOf se)
    exact formatWorld_lookup _ _ "genotype" gdims hdesc
  have hlast : ((c0 :: crest).map f).getLast?.isSome := by
    rw [List.getLast?_isSome]
    simp
  obtain ⟨lastW, hlastW⟩ := Option.isSome_iff_exists.mp hlast
  rw [hlastW, Option.some_bind, hmap, allSome_map_some gdaOf, Option.some_bind,
    List.map_cons]
  simp only [concatAlong, Option.map_some']
  refine ⟨_, _, rfl, ?_⟩
  simp only [eq_self_iff_true, if_true]
  refine ⟨_, rfl, ?_⟩
  dsimp only
  rw [if_pos rfl]
  rw [show (gdaOf c0 :: crest.map gdaOf) = (c0 :: crest).map gdaOf from rfl,
    List.map_map]
  have hfun : ((fun a : DataArray V => (a.coords "position").getD []) ∘ gdaOf)
      = fun se : ℕ × ℕ => (mg.position.drop se.1).take (se.2 - se.1) := by
    funext se
    show ((gdaOf se).coords "position").getD [] = _
    rw [hgdaOf]
    show ((if "position" ∈ gdims
      then (chunkModel s mg comm np hyper dtype device se).coords "position"
      else none).getD []) = _
    rw [if_pos hgp,
      chunkModel_coords_position s mg comm np hyper dtype device se hpos]
    rfl
  rw [hfun, chained_join_slices mg.position hch]
  simp

/-- A concrete structure for the witness of claim C6. -/
def c6Structure : SfStructure ℕ :=
  { dims := ["strain", "sample", "position", "allele"]
    description := dset emptyDict "genotype" ["strain", "position"]
    defaultHyperparameters := emptyDict }

/-- A concrete three-position metagenotype for the witness of claim C6. -/
def c6Mg : Metagenotype ℕ :=
  { sample := [Label.num 0]
    position := [Label.num 10, Label.num 11, Label.num 12]
    allele := [Label.str "alt", Label.str "ref"]
    countsTotals := emptyDict
    chunkCounts := fun _ _ => emptyDict
    values := 0 }

/-- A concrete one-strain community for the witness of claim C6. -/
def c6Comm : Community ℕ :=
  { sample := [Label.num 0], strain := [Label.num 0], values := 0 }

/-- Witness for claim C6: three positions fitted in chunks of two. -/
theorem claim_c6_witness :
    ("position" ∈ c6Structure.dims ∧
      c6Structure.description "genotype" = some ["strain", "position"] ∧
      "position" ∈ ["strain", "position"] ∧ 1 ≤ 2 ∧ c6Mg.position ≠ []) ∧
    (∃ w worlds,
      iterativelyFitGenotype c6Structure c6Mg c6Comm 2 emptyDict "torch.float32"
        "cpu" (fun _ _ => 0) (fun _ => 0) = some (w, worlds) ∧
      ∃ gda, w "genotype" = some gda ∧ gda.coords "position" = some c6Mg.position) :=
  ⟨⟨by decide, rfl, by decide, by decide, by decide⟩,
   claim_c6 c6Structure c6Mg c6Comm 2 emptyDict "torch.float32" "cpu"
     (fun _ _ => 0) (fun _ => 0) ["strain", "position"] (by decide) rfl
     (by decide) (by decide) (by decide)⟩

end StrainFacts
